import Mathlib

/-!
Shallow embedding of the URLQuestioner server code (TypeScript) in Lean 4.

JavaScript strings are modelled as `List Char`; JavaScript numbers that the
embedded code uses are integers in every reachable state, so they are
modelled as `Int` (or `Nat` where the source value is a count).  Fallible
operations return `Except` / `Option`, and the `while` loop of the content
chunker is modelled with explicit fuel.
-/

namespace URLQuestioner

/-- ASCII whitespace recognised by the JavaScript regex class `\s`
(ignoring the exotic Unicode space code points). -/
def jsIsWs (c : Char) : Bool :=
  c = ' ' || c = '\t' || c = '\n' || c = '\r' || c = '\x0b' || c = '\x0c'

/-- JavaScript `String.prototype.trim`: drop leading and trailing whitespace. -/
def jsTrim (s : List Char) : List Char :=
  ((s.dropWhile jsIsWs).reverse.dropWhile jsIsWs).reverse

/-- JavaScript `String.prototype.toLowerCase` (ASCII fragment). -/
def jsToLower (s : List Char) : List Char :=
  s.map Char.toLower

/-- Helper for `jsSplitWs`: split on maximal whitespace runs.  `cur` is the
current word accumulated in reverse; `inWs` records whether the previous
character belonged to a whitespace run (so that a run longer than one
character emits only one separator). -/
def splitWsAux : List Char → List Char → Bool → List (List Char)
  | [], cur, _ => [cur.reverse]
  | c :: rest, cur, inWs =>
    if jsIsWs c then
      if inWs then splitWsAux rest cur true
      else cur.reverse :: splitWsAux rest [] true
    else
      splitWsAux rest (c :: cur) false

/-- JavaScript `s.split(/\s+/)`: split on maximal whitespace runs.  A leading
or trailing run yields an empty-string element, exactly as in JavaScript. -/
def jsSplitWs (s : List Char) : List (List Char) :=
  splitWsAux s [] false

/-- JavaScript `s.includes(pat)` (argument order: pattern first, string
second): does `pat` occur contiguously somewhere in `s`? -/
def jsIncludes (pat : List Char) : List Char → Bool
  | [] => pat.isEmpty
  | c :: rest => pat.isPrefixOf (c :: rest) || jsIncludes pat rest

/-- Does `pat` occur in `s` starting at index `i`? -/
def matchAt (s pat : List Char) (i : Nat) : Bool :=
  pat.isPrefixOf (s.drop i)

/-- Search downward from index `i` for the last occurrence of `pat`;
`-1` if there is none. -/
def lastIndexOfFrom (s pat : List Char) : Nat → Int
  | 0 => if matchAt s pat 0 then 0 else -1
  | i + 1 => if matchAt s pat (i + 1) then (i : Int) + 1 else lastIndexOfFrom s pat i

/-- JavaScript `s.lastIndexOf(pat, pos)`: the largest start index `≤ pos`
at which `pat` occurs in `s`, or `-1`.  The position is clamped to
`[0, s.length]` as in JavaScript. -/
def jsLastIndexOf (s pat : List Char) (pos : Int) : Int :=
  lastIndexOfFrom s pat ((min (max pos 0) (s.length : Int)).toNat)

/-- JavaScript `s.slice(a, b)` with possibly negative indices. -/
def jsSlice (s : List Char) (a b : Int) : List Char :=
  let norm : Int → Nat := fun i =>
    if i < 0 then (max ((s.length : Int) + i) 0).toNat else (min i (s.length : Int)).toNat
  (s.take (norm b)).drop (norm a)

/-! ### Content chunking (`src/server/services/openai.ts`, lines 69–96) -/

/-- `MAX_CHUNK_SIZE` from `openai.ts` (characters per chunk). -/
def MAX_CHUNK_SIZE : Int := 8000

/-- `CHUNK_OVERLAP` from `openai.ts` (overlap between chunks). -/
def CHUNK_OVERLAP : Int := 200

/-- One execution of the `while` body of `splitContentIntoChunks`: from the
window start, compute the (possibly sentence-adjusted) window end and return
it.  `breakPoint > start + maxChunkSize * 0.5` is rendered exactly as
`2 * breakPoint > 2 * start + maxChunkSize`, which agrees with the
floating-point comparison on integral values. -/
def chunkWindowEnd (content : List Char) (maxChunkSize : Int) (start : Int) : Int :=
  let end0 : Int := min (start + maxChunkSize) (content.length : Int)
  if end0 < (content.length : Int) then
    let lastSentenceEnd := jsLastIndexOf content ['.'] end0
    let lastParagraphEnd := jsLastIndexOf content ['\n', '\n'] end0
    let breakPoint := max lastSentenceEnd lastParagraphEnd
    if 2 * breakPoint > 2 * start + maxChunkSize then breakPoint + 1 else end0
  else
    end0

/-- The `while (start < content.length)` loop of `splitContentIntoChunks`,
with explicit fuel; `none` means the fuel ran out before the loop exited. -/
def splitChunksLoop (content : List Char) (maxChunkSize overlap : Int) :
    Nat → Int → List (List Char) → Option (List (List Char))
  | 0, _, _ => none
  | fuel + 1, start, chunks =>
    if start < (content.length : Int) then
      let e := chunkWindowEnd content maxChunkSize start
      splitChunksLoop content maxChunkSize overlap fuel (e - overlap)
        (chunks ++ [jsTrim (jsSlice content start e)])
    else
      some chunks

/-- `splitContentIntoChunks` from `openai.ts`.  Returns `none` when the fuel
is exhausted, i.e. when the source loop has not terminated within `fuel`
iterations. -/
def splitContentIntoChunks (content : List Char) (maxChunkSize overlap : Int)
    (fuel : Nat) : Option (List (List Char)) :=
  if (content.length : Int) ≤ maxChunkSize then
    some [content]
  else
    splitChunksLoop content maxChunkSize overlap fuel 0 []

/-! ### Model fallback (`src/server/services/openai.ts`, lines 6–16 and 98–115)

`callOpenRouter` performs a network call; its observable behaviour for a
given model is either a thrown error (modelled by `Except.error` carrying the
error message) or a completion string (possibly empty, since the source
returns `data.choices[0]?.message?.content || ""`).  `callWithFallback` is
parametrised by that behaviour, written `call`. -/

/-- `AVAILABLE_MODELS` from `openai.ts`: the keys of `MODEL_CONFIG`, in
declaration order. -/
def AVAILABLE_MODELS : List String :=
  [ "deepseek/deepseek-chat-v3.1:free",
    "openai/gpt-oss-120b:free",
    "qwen/qwen3-4b:free",
    "meta-llama/llama-3.1-8b-instruct:free",
    "microsoft/phi-3-mini-128k-instruct:free",
    "google/gemma-2-9b-it:free" ]

/-- The `modelsToTry` list computed at the top of `callWithFallback`. -/
def modelsToTry (preferredModel : Option String) : List String :=
  match preferredModel with
  | some p => p :: AVAILABLE_MODELS.filter (fun m => m ≠ p)
  | none => AVAILABLE_MODELS

/-- The `for … of modelsToTry` loop of `callWithFallback`, threading
`lastError` (`none` plays the role of the initial `null`). -/
def callWithFallbackGo (call : String → Except String String) :
    List String → Option String → Except String (String × String)
  | [], lastErr =>
    Except.error ("All models failed. Last error: " ++
      (match lastErr with | some m => m | none => "undefined"))
  | model :: rest, _ =>
    match call model with
    | Except.ok response => Except.ok (response, model)
    | Except.error e => callWithFallbackGo call rest (some e)

/-- `callWithFallback` from `openai.ts`, parametrised by the behaviour of
`callOpenRouter`.  The successful value pairs the response text with the
`modelUsed` identifier. -/
def callWithFallback (call : String → Except String String)
    (preferredModel : Option String) : Except String (String × String) :=
  callWithFallbackGo call (modelsToTry preferredModel) none

/-! ### Relevance selection (`src/server/services/openai.ts`, lines 245–265) -/

/-- `questionWords` from `findRelevantChunks`: lowercase the question, split
on whitespace, keep words longer than 3 characters. -/
def questionWords (question : List Char) : List (List Char) :=
  (jsSplitWs (jsToLower question)).filter (fun w => 3 < w.length)

/-- The per-chunk score of `findRelevantChunks`: the `reduce` over the
question words, each adding the number of chunk words that contain it. -/
def chunkScore (qws : List (List Char)) (chunk : List Char) : Nat :=
  qws.foldl
    (fun acc w => acc + ((jsSplitWs (jsToLower chunk)).filter (fun cw => jsIncludes w cw)).length)
    0

/-- One element of the `chunkScores` array of `findRelevantChunks`. -/
structure ChunkScore where
  chunk : List Char
  score : Nat
  index : Nat
deriving DecidableEq, Repr

/-- `chunks.map((chunk, index) => { chunk, score, index })`, with the running
index made explicit. -/
def chunkScoresFrom (qws : List (List Char)) : Nat → List (List Char) → List ChunkScore
  | _, [] => []
  | i, c :: cs => { chunk := c, score := chunkScore qws c, index := i } :: chunkScoresFrom qws (i + 1) cs

/-- Comparator `(a, b) => b.score - a.score` of the first sort, as the total
preorder it induces: `a` may precede `b` iff `b.score ≤ a.score`. -/
def scoreGe (a b : ChunkScore) : Prop := b.score ≤ a.score

instance : DecidableRel scoreGe := fun a b => Nat.decLe b.score a.score

/-- Comparator `(a, b) => a.index - b.index` of the second sort. -/
def idxLe (a b : ChunkScore) : Prop := a.index ≤ b.index

instance : DecidableRel idxLe := fun a b => Nat.decLe a.index b.index

/-- The `relevantChunks` pipeline of `findRelevantChunks`: stable sort
descending by score, take the top `maxChunks`, stable sort back into
document order, and project out the chunks. -/
def rankedChunks (scored : List ChunkScore) (maxChunks : Nat) : List (List Char) :=
  (((scored.insertionSort scoreGe).take maxChunks).insertionSort idxLe).map
    (fun e => e.chunk)

/-- `findRelevantChunks` from `openai.ts`.  JavaScript `Array.prototype.sort`
is a stable sort driven by a consistent comparator, so it is modelled by the
stable `List.insertionSort`. -/
def findRelevantChunks (question : List Char) (chunks : List (List Char))
    (maxChunks : Nat) : List (List Char) :=
  if 0 < (rankedChunks (chunkScoresFrom (questionWords question) 0 chunks) maxChunks).length
  then rankedChunks (chunkScoresFrom (questionWords question) 0 chunks) maxChunks
  else chunks.take maxChunks

/-! ### MCQ generation (`src/server/services/mcq-generator.ts`, lines 99–130) -/

/-- One question object as it comes out of `JSON.parse` in `generateMCQs`.
`question`/`explanation` are the string value of the field, with `""` also
standing for an absent or otherwise falsy field (the source treats those
identically through `||`).  `options` is `none` unless the field is an
array; `correctAnswer` is `none` unless the field is a number (numbers are
modelled as rationals). -/
structure RawMCQ where
  question : String
  options : Option (List String)
  correctAnswer : Option ℚ
  explanation : String

/-- A validated MCQ (`MCQQuestion` in `mcq-generator.ts`). -/
structure MCQQuestion where
  question : String
  options : List String
  correctAnswer : ℚ
  explanation : String
deriving DecidableEq, Repr

/-- The default options used when a parsed question lacks a 4-element
options array. -/
def defaultOptions : List String := ["Option A", "Option B", "Option C", "Option D"]

/-- The `questions.map((q, index) => …)` validator of `generateMCQs`. -/
def validateMCQ (q : RawMCQ) (index : Nat) : MCQQuestion :=
  { question := if q.question = "" then "Question " ++ toString (index + 1) else q.question,
    options :=
      match q.options with
      | some opts => if opts.length = 4 then opts else defaultOptions
      | none => defaultOptions,
    correctAnswer :=
      match q.correctAnswer with
      | some c => if 0 ≤ c ∧ c ≤ 3 then c else 0
      | none => 0,
    explanation := if q.explanation = "" then "No explanation provided" else q.explanation }

/-- `validateMCQ` mapped with its running index. -/
def validateMCQsFrom : Nat → List RawMCQ → List MCQQuestion
  | _, [] => []
  | i, q :: qs => validateMCQ q i :: validateMCQsFrom (i + 1) qs

/-- The fallback questions built in the `catch (parseError)` branch. -/
def fallbackMCQs (numberOfQuestions : Nat) (topic : String) : List MCQQuestion :=
  (List.range numberOfQuestions).map (fun i =>
    { question := "Question " ++ toString (i + 1) ++ " about " ++ topic,
      options := defaultOptions,
      correctAnswer := 0,
      explanation := "This is a placeholder question." })

/-- The response-processing part of `generateMCQs` (lines 99–128):
`parsed = none` models a `JSON.parse` failure or a non-array value, both of
which land in the `catch` branch, as does an empty array; otherwise each
element is validated and the list trimmed to `numberOfQuestions`. -/
def processMCQResponse : Option (List RawMCQ) → Nat → String → List MCQQuestion
  | some qs, numberOfQuestions, topic =>
    if qs.length = 0 then fallbackMCQs numberOfQuestions topic
    else (validateMCQsFrom 0 qs).take numberOfQuestions
  | none, numberOfQuestions, topic => fallbackMCQs numberOfQuestions topic

/-! ### In-memory storage (`src/server/storage.ts`) -/

/-- `InsertMessage`: the caller-supplied part of a message. -/
structure InsertMessage where
  sessionId : String
  role : String
  content : String
  modelUsed : Option String

/-- A stored `Message`; ids and timestamps are abstract numbers supplied by
the environment (`randomUUID()` and `new Date()`). -/
structure Message where
  id : Nat
  sessionId : String
  role : String
  content : String
  modelUsed : Option String
  timestamp : Nat
deriving DecidableEq, Repr

/-- `MemStorage.messages`: a `Map` keyed by id, modelled as an association
list in insertion order (the iteration order of a JavaScript `Map`). -/
structure MemStorage where
  messages : List (Nat × Message)
deriving DecidableEq, Repr

/-- `Map.prototype.set`: replace in place if the key is present, else append. -/
def mapSet (l : List (Nat × Message)) (k : Nat) (v : Message) : List (Nat × Message) :=
  if l.any (fun p => p.fst = k) then
    l.map (fun p => if p.fst = k then (k, v) else p)
  else
    l ++ [(k, v)]

/-- `MemStorage.createMessage`; `id` and `now` stand for the fresh
`randomUUID()` and the current `new Date()`.  `insertMessage.modelUsed || null`
maps an empty string (falsy) to `null`. -/
def createMessage (st : MemStorage) (m : InsertMessage) (id now : Nat) :
    MemStorage × Message :=
  let msg : Message :=
    { id := id,
      sessionId := m.sessionId,
      role := m.role,
      content := m.content,
      modelUsed := match m.modelUsed with
        | some s => if s = "" then none else some s
        | none => none,
      timestamp := now }
  ({ messages := mapSet st.messages id msg }, msg)

/-- Comparator `(a, b) => a.timestamp.getTime() - b.timestamp.getTime()`. -/
def tsLe (a b : Message) : Prop := a.timestamp ≤ b.timestamp

instance : DecidableRel tsLe := fun a b => Nat.decLe a.timestamp b.timestamp

/-- `MemStorage.getMessagesBySessionId`: filter the map values by session id
and stably sort by timestamp. -/
def getMessagesBySessionId (st : MemStorage) (sessionId : String) : List Message :=
  ((st.messages.map Prod.snd).filter (fun m => m.sessionId = sessionId)).insertionSort tsLe

/-! ### Extraction length thresholds
(`src/server/services/scraper.ts`, lines 61–63;
`src/server/services/pdf-processor.ts`, lines 10–12) -/

/-- The length guard of `extractContentFromUrl`: after cleanup, the text is
rejected when `!extractedText || extractedText.length < 100`. -/
def scraperRejectsLen (text : List Char) : Bool :=
  decide (text = []) || decide (text.length < 100)

/-- The length guard of `extractTextFromPDF`: the raw text is rejected when
`!data.text || data.text.trim().length < 50`. -/
def pdfRejectsLen (text : List Char) : Bool :=
  decide (text = []) || decide ((jsTrim text).length < 50)

/-! ### Spec-side definitions for the refinement comparison of relevance
selection, and concrete oracles used by witnesses and counterexamples. -/

/-- Modelled from the spec's words (claim C5): the chunk score is "the count
of chunk words that contain any of the question words as a substring" — each
chunk word counted at most once. -/
def chunkScoreClaim (qws : List (List Char)) (chunk : List Char) : Nat :=
  ((jsSplitWs (jsToLower chunk)).filter (fun cw => qws.any (fun w => jsIncludes w cw))).length

/-- `chunkScoreClaim` mapped with its running index. -/
def chunkScoresClaimFrom (qws : List (List Char)) : Nat → List (List Char) → List ChunkScore
  | _, [] => []
  | i, c :: cs =>
    { chunk := c, score := chunkScoreClaim qws c, index := i } :: chunkScoresClaimFrom qws (i + 1) cs

/-- Modelled from the spec's words (claim C5): the selection pipeline with
the claim's per-chunk-word score. -/
def findRelevantChunksClaim (question : List Char) (chunks : List (List Char))
    (maxChunks : Nat) : List (List Char) :=
  if 0 < (rankedChunks (chunkScoresClaimFrom (questionWords question) 0 chunks) maxChunks).length
  then rankedChunks (chunkScoresClaimFrom (questionWords question) 0 chunks) maxChunks
  else chunks.take maxChunks

/-- The amended description of the score: the sum, over the question words
(with multiplicity), of the number of chunk words containing that word. -/
def chunkScoreSum (qws : List (List Char)) (chunk : List Char) : Nat :=
  (qws.map (fun w => ((jsSplitWs (jsToLower chunk)).filter (fun cw => jsIncludes w cw)).length)).sum

/-- `chunkScoreSum` mapped with its running index. -/
def chunkScoresSumFrom (qws : List (List Char)) : Nat → List (List Char) → List ChunkScore
  | _, [] => []
  | i, c :: cs =>
    { chunk := c, score := chunkScoreSum qws c, index := i } :: chunkScoresSumFrom qws (i + 1) cs

/-- The amended selection pipeline: stable descending sort on the summed
score, take the top `maxChunks`, restore document order, with the first-N
fallback. -/
def findRelevantChunksAmended (question : List Char) (chunks : List (List Char))
    (maxChunks : Nat) : List (List Char) :=
  if 0 < (rankedChunks (chunkScoresSumFrom (questionWords question) 0 chunks) maxChunks).length
  then rankedChunks (chunkScoresSumFrom (questionWords question) 0 chunks) maxChunks
  else chunks.take maxChunks

/-- An oracle whose first candidate returns an empty completion without
throwing while a later candidate has a non-empty completion. -/
def callEmptyFirst : String → Except String String :=
  fun m => if m = "deepseek/deepseek-chat-v3.1:free" then Except.ok "" else Except.ok "hello"

/-- An oracle on which exactly the third candidate of the default list
succeeds. -/
def callThirdOk : String → Except String String :=
  fun m => if m = "qwen/qwen3-4b:free" then Except.ok "the answer" else Except.error "boom"

/-- An oracle on which every model fails with message `"boom"`. -/
def callAllFail : String → Except String String :=
  fun _ => Except.error "boom"

/-- A well-formed parsed MCQ object, used to instantiate the MCQ theorems. -/
def rawMCQ1 : RawMCQ :=
  { question := "What is 2 + 2?",
    options := some ["3", "4", "5", "6"],
    correctAnswer := some 1,
    explanation := "Basic arithmetic." }

/-! ## Helper lemmas -/

theorem mapSet_fresh (l : List (Nat × Message)) (k : Nat) (v : Message)
    (h : ∀ p ∈ l, p.fst ≠ k) : mapSet l k v = l ++ [(k, v)] := by
  unfold mapSet
  rw [if_neg]
  simp only [List.any_eq_true, not_exists, not_and]
  intro p hp
  simpa using h p hp

theorem jsTrim_nil : jsTrim [] = [] := rfl

theorem createMessage_state (st : MemStorage) (m : InsertMessage) (id now : Nat)
    (h : ∀ p ∈ st.messages, p.fst ≠ id) :
    (createMessage st m id now).1.messages =
      st.messages ++ [(id, (createMessage st m id now).2)] :=
  mapSet_fresh _ _ _ h

theorem createMessage_sessionId (st : MemStorage) (m : InsertMessage) (id now : Nat) :
    (createMessage st m id now).2.sessionId = m.sessionId := rfl

theorem createMessage_timestamp (st : MemStorage) (m : InsertMessage) (id now : Nat) :
    (createMessage st m id now).2.timestamp = now := rfl

/-! ## Claim theorems: storage -/

/-- C10: for a session identifier with no stored message — in particular a
session that does not exist — `getMessagesBySessionId` returns the empty
list (and, being a total function, never throws). -/
theorem getMessagesBySessionId_no_messages (st : MemStorage) (sid : String)
    (h : ∀ p ∈ st.messages, (Prod.snd p).sessionId ≠ sid) :
    getMessagesBySessionId st sid = [] := by
  unfold getMessagesBySessionId
  have hf : (st.messages.map Prod.snd).filter (fun m => m.sessionId = sid) = [] := by
    rw [List.filter_eq_nil_iff]
    intro m hm
    rcases List.mem_map.mp hm with ⟨p, hp, rfl⟩
    simpa using h p hp
  rw [hf]
  rfl

/-- Witness for C10 at the empty storage. -/
theorem getMessagesBySessionId_no_messages_w :
    getMessagesBySessionId { messages := [] } "absent-session" = [] :=
  getMessagesBySessionId_no_messages { messages := [] } "absent-session" (by simp)

/-- C9: appending message A and then message B for a previously empty
session (with fresh ids and a non-decreasing clock) makes
`getMessagesBySessionId` return `[A, B]`, and the timestamps in the returned
list are non-decreasing. -/
theorem createMessage_then_get_in_order (st : MemStorage) (sid : String)
    (mA mB : InsertMessage) (idA idB t1 t2 : Nat)
    (hA : mA.sessionId = sid) (hB : mB.sessionId = sid)
    (hempty : ∀ p ∈ st.messages, (Prod.snd p).sessionId ≠ sid)
    (hfreshA : ∀ p ∈ st.messages, p.fst ≠ idA)
    (hfreshB : ∀ p ∈ st.messages, p.fst ≠ idB)
    (hne : idA ≠ idB) (ht : t1 ≤ t2) :
    getMessagesBySessionId (createMessage (createMessage st mA idA t1).1 mB idB t2).1 sid =
      [(createMessage st mA idA t1).2, (createMessage (createMessage st mA idA t1).1 mB idB t2).2] ∧
    ((createMessage st mA idA t1).2).timestamp ≤
      ((createMessage (createMessage st mA idA t1).1 mB idB t2).2).timestamp := by
  have hA1 : (createMessage st mA idA t1).2.sessionId = sid := by
    rw [createMessage_sessionId, hA]
  have hB1 : ((createMessage (createMessage st mA idA t1).1 mB idB t2).2).sessionId = sid := by
    rw [createMessage_sessionId, hB]
  have hs1 : (createMessage st mA idA t1).1.messages =
      st.messages ++ [(idA, (createMessage st mA idA t1).2)] :=
    createMessage_state _ _ _ _ hfreshA
  have hfreshB2 : ∀ p ∈ (createMessage st mA idA t1).1.messages, p.fst ≠ idB := by
    rw [hs1]
    intro p hp
    rcases List.mem_append.mp hp with h1 | h1
    · exact hfreshB p h1
    · rcases List.mem_singleton.mp h1 with rfl
      simpa using hne
  have hs2 : (createMessage (createMessage st mA idA t1).1 mB idB t2).1.messages =
      (createMessage st mA idA t1).1.messages ++
        [(idB, (createMessage (createMessage st mA idA t1).1 mB idB t2).2)] :=
    createMessage_state _ _ _ _ hfreshB2
  have hfA : ((st.messages.map Prod.snd).filter (fun m => m.sessionId = sid)) = [] := by
    rw [List.filter_eq_nil_iff]
    intro m hm
    rcases List.mem_map.mp hm with ⟨p, hp, rfl⟩
    simpa using hempty p hp
  refine ⟨?_, ?_⟩
  · unfold getMessagesBySessionId
    rw [hs2, hs1]
    simp only [List.map_append, List.filter_append, List.map_cons, List.map_nil,
      List.filter_cons, List.filter_nil]
    rw [hfA]
    simp [hA1, hB1, List.insertionSort, List.orderedInsert, tsLe,
      createMessage_timestamp, ht]
  · rw [createMessage_timestamp, createMessage_timestamp]
    exact ht

/-- Witness for C9: two concrete messages appended to the empty storage. -/
theorem createMessage_then_get_in_order_w :
    getMessagesBySessionId
        (createMessage
          (createMessage { messages := [] }
            { sessionId := "s1", role := "user", content := "hi", modelUsed := none } 0 5).1
          { sessionId := "s1", role := "assistant", content := "yo", modelUsed := none } 1 7).1
        "s1" =
      [(createMessage { messages := [] }
          { sessionId := "s1", role := "user", content := "hi", modelUsed := none } 0 5).2,
       (createMessage
          (createMessage { messages := [] }
            { sessionId := "s1", role := "user", content := "hi", modelUsed := none } 0 5).1
          { sessionId := "s1", role := "assistant", content := "yo", modelUsed := none } 1 7).2] ∧
    ((createMessage { messages := [] }
        { sessionId := "s1", role := "user", content := "hi", modelUsed := none } 0 5).2).timestamp ≤
      ((createMessage
          (createMessage { messages := [] }
            { sessionId := "s1", role := "user", content := "hi", modelUsed := none } 0 5).1
          { sessionId := "s1", role := "assistant", content := "yo", modelUsed := none } 1 7).2).timestamp :=
  createMessage_then_get_in_order { messages := [] } "s1"
    { sessionId := "s1", role := "user", content := "hi", modelUsed := none }
    { sessionId := "s1", role := "assistant", content := "yo", modelUsed := none }
    0 1 5 7 rfl rfl (by simp) (by simp) (by simp) (by decide) (by decide)

/-! ## Claim theorems: extraction length thresholds -/

/-- C8 counterexample: there is no single threshold `T` such that both the
URL length guard and the PDF length guard reject exactly the texts shorter
than `T`: a 60-character cleaned text is rejected by the URL guard
(threshold 100) but accepted by the PDF guard (threshold 50). -/
theorem extraction_thresholds_not_common :
    ¬ ∃ T : Nat, ∀ t : List Char,
      (t.length < T → scraperRejectsLen t = true ∧ pdfRejectsLen t = true) ∧
      (T ≤ t.length → scraperRejectsLen t = false ∧ pdfRejectsLen t = false) := by
  rintro ⟨T, h⟩
  have hscr : scraperRejectsLen (List.replicate 60 'a') = true := by decide
  have hpdf : pdfRejectsLen (List.replicate 60 'a') = false := by decide
  rcases Nat.lt_or_ge (List.replicate 60 'a').length T with hT | hT
  · have h2 := ((h (List.replicate 60 'a')).1 hT).2
    rw [h2] at hpdf
    exact Bool.noConfusion hpdf
  · have h2 := ((h (List.replicate 60 'a')).2 hT).1
    rw [h2] at hscr
    exact Bool.noConfusion hscr

/-- C8 amended: the two guards use different thresholds — the URL guard
rejects exactly the cleaned texts shorter than 100 characters, while the PDF
guard rejects exactly the texts whose trimmed form is shorter than 50
characters. -/
theorem extraction_thresholds_characterised (t : List Char) :
    (scraperRejectsLen t = true ↔ t.length < 100) ∧
    (pdfRejectsLen t = true ↔ (jsTrim t).length < 50) := by
  constructor
  · unfold scraperRejectsLen
    simp only [Bool.or_eq_true, decide_eq_true_eq]
    constructor
    · rintro (rfl | h)
      · simp
      · exact h
    · exact Or.inr
  · unfold pdfRejectsLen
    simp only [Bool.or_eq_true, decide_eq_true_eq]
    constructor
    · rintro (rfl | h)
      · simp [jsTrim_nil]
      · exact h
    · exact Or.inr

/-! ## Claim theorems: chunker short-circuit (C4) -/

/-- C4 counterexample: for the two-character input `" a"` (within the
maximum chunk size) the chunker returns the input unchanged, not trimmed —
the single-chunk short-circuit of `splitContentIntoChunks` skips `trim`. -/
theorem splitContentIntoChunks_short_not_trimmed :
    splitContentIntoChunks [' ', 'a'] MAX_CHUNK_SIZE CHUNK_OVERLAP 0 = some [[' ', 'a']] ∧
    jsTrim [' ', 'a'] = ['a'] ∧
    splitContentIntoChunks [' ', 'a'] MAX_CHUNK_SIZE CHUNK_OVERLAP 0 ≠
      some [jsTrim [' ', 'a']] := by
  refine ⟨?_, ?_, ?_⟩ <;> decide

/-- C4 amended: for every text whose length is at most the maximum chunk
size, `splitContentIntoChunks` returns exactly one chunk equal to the input
text unchanged (not trimmed). -/
theorem splitContentIntoChunks_short_single (content : List Char) (fuel : Nat)
    (h : content.length ≤ 8000) :
    splitContentIntoChunks content MAX_CHUNK_SIZE CHUNK_OVERLAP fuel = some [content] := by
  unfold splitContentIntoChunks
  rw [if_pos]
  unfold MAX_CHUNK_SIZE
  exact_mod_cast h

/-- Witness for the amended C4 at a concrete short input. -/
theorem splitContentIntoChunks_short_single_w :
    splitContentIntoChunks [' ', 'a'] MAX_CHUNK_SIZE CHUNK_OVERLAP 3 = some [[' ', 'a']] :=
  splitContentIntoChunks_short_single [' ', 'a'] 3 (by decide)

/-! ## Claim theorems: model fallback (C2, C3) -/

theorem callWithFallbackGo_first_ok (call : String → Except String String) :
    ∀ (l₁ : List String) (m : String) (l₂ : List String) (le : Option String) (r : String),
      (∀ m2 ∈ l₁, ∃ e, call m2 = Except.error e) → call m = Except.ok r →
      callWithFallbackGo call (l₁ ++ m :: l₂) le = Except.ok (r, m)
  | [], m, l₂, le, r, _, hm => by
    simp [callWithFallbackGo, hm]
  | a :: t, m, l₂, le, r, h, hm => by
    rcases h a (List.mem_cons_self a t) with ⟨e, he⟩
    simp only [List.cons_append, callWithFallbackGo, he]
    exact callWithFallbackGo_first_ok call t m l₂ (some e) r
      (fun m2 hm2 => h m2 (List.mem_cons_of_mem a hm2)) hm

theorem callWithFallbackGo_ok_of_mem (call : String → Except String String) :
    ∀ (l : List String) (le : Option String) (m : String) (r : String),
      m ∈ l → call m = Except.ok r →
      ∃ v, callWithFallbackGo call l le = Except.ok v
  | [], _, m, _, hm, _ => absurd hm (List.not_mem_nil m)
  | a :: t, le, m, r, hm, hok => by
    cases hc : call a with
    | ok r2 => exact ⟨(r2, a), by simp [callWithFallbackGo, hc]⟩
    | error e =>
      rcases List.mem_cons.mp hm with rfl | hm2
      · rw [hok] at hc
        exact Except.noConfusion hc
      · simp only [callWithFallbackGo, hc]
        exact callWithFallbackGo_ok_of_mem call t (some e) m r hm2 hok

theorem callWithFallbackGo_all_error (call : String → Except String String) :
    ∀ (l : List String) (le : Option String) (hne : l ≠ []) (eL : String),
      (∀ m ∈ l, ∃ e, call m = Except.error e) →
      call (l.getLast hne) = Except.error eL →
      callWithFallbackGo call l le = Except.error ("All models failed. Last error: " ++ eL)
  | [], _, hne, _, _, _ => absurd rfl hne
  | [m], le, _, eL, _, hL => by
    have hm : call m = Except.error eL := hL
    simp [callWithFallbackGo, hm]
  | a :: b :: t, le, _, eL, h, hL => by
    rcases h a (List.mem_cons_self a (b :: t)) with ⟨e, he⟩
    simp only [callWithFallbackGo, he]
    refine callWithFallbackGo_all_error call (b :: t) (some e) (by simp) eL
      (fun m hm => h m (List.mem_cons_of_mem a hm)) ?_
    rw [← List.getLast_cons (a := a) (by simp : (b :: t) ≠ [])]
    exact hL

theorem modelsToTry_ne_nil (pre : Option String) : modelsToTry pre ≠ [] := by
  cases pre <;> simp [modelsToTry, AVAILABLE_MODELS]

/-- C2 counterexample: with an oracle whose first candidate returns an empty
completion without throwing, `callWithFallback` succeeds on that first
candidate and reports its empty completion, even though a later candidate
would have returned a non-empty completion. -/
theorem callWithFallback_accepts_empty_completion :
    callWithFallback callEmptyFirst none = Except.ok ("", "deepseek/deepseek-chat-v3.1:free") ∧
    callEmptyFirst "openai/gpt-oss-120b:free" = Except.ok "hello" ∧
    ("" : String) ≠ "hello" := by
  refine ⟨rfl, rfl, by decide⟩

/-- C2 amended: `callWithFallback` succeeds exactly on the first candidate
whose call does not throw — even when that completion is empty — returning
that call's completion text with `modelUsed` equal to that model, and the
failures of all earlier candidates are swallowed. -/
theorem callWithFallback_first_non_throwing (call : String → Except String String)
    (pre : Option String) (l₁ : List String) (m : String) (l₂ : List String) (r : String)
    (hsplit : modelsToTry pre = l₁ ++ m :: l₂)
    (hfail : ∀ m2 ∈ l₁, ∃ e, call m2 = Except.error e)
    (hm : call m = Except.ok r) :
    callWithFallback call pre = Except.ok (r, m) := by
  unfold callWithFallback
  rw [hsplit]
  exact callWithFallbackGo_first_ok call l₁ m l₂ none r hfail hm

/-- Witness for the amended C2: only the third candidate of the default list
succeeds, and the result reports the third model's identifier. -/
theorem callWithFallback_first_non_throwing_w :
    callWithFallback callThirdOk none = Except.ok ("the answer", "qwen/qwen3-4b:free") :=
  callWithFallback_first_non_throwing callThirdOk none
    ["deepseek/deepseek-chat-v3.1:free", "openai/gpt-oss-120b:free"]
    "qwen/qwen3-4b:free"
    ["meta-llama/llama-3.1-8b-instruct:free", "microsoft/phi-3-mini-128k-instruct:free",
      "google/gemma-2-9b-it:free"]
    "the answer"
    rfl
    (by
      intro m2 hm2
      rcases List.mem_cons.mp hm2 with rfl | hm3
      · exact ⟨"boom", rfl⟩
      · rcases List.mem_singleton.mp hm3 with rfl
        exact ⟨"boom", rfl⟩)
    rfl

/-- C3: `callWithFallback` fails if and only if every candidate model in its
try-list fails, and in that case its error is the exhaustion error whose
message extends the message of the last underlying failure. -/
theorem callWithFallback_exhaustion (call : String → Except String String)
    (pre : Option String) :
    ((∃ e, callWithFallback call pre = Except.error e) ↔
      ∀ m ∈ modelsToTry pre, ∃ e, call m = Except.error e) ∧
    (∀ eL, (∀ m ∈ modelsToTry pre, ∃ e, call m = Except.error e) →
      call ((modelsToTry pre).getLast (modelsToTry_ne_nil pre)) = Except.error eL →
      callWithFallback call pre = Except.error ("All models failed. Last error: " ++ eL)) := by
  constructor
  · constructor
    · rintro ⟨e, he⟩ m hm
      cases hc : call m with
      | error e2 => exact ⟨e2, rfl⟩
      | ok r =>
        rcases callWithFallbackGo_ok_of_mem call (modelsToTry pre) none m r hm hc with ⟨v, hv⟩
        unfold callWithFallback at he
        rw [hv] at he
        exact Except.noConfusion he
    · intro hall
      rcases hall ((modelsToTry pre).getLast (modelsToTry_ne_nil pre))
          (List.getLast_mem (modelsToTry_ne_nil pre)) with ⟨eL, heL⟩
      exact ⟨_, callWithFallbackGo_all_error call (modelsToTry pre) none
        (modelsToTry_ne_nil pre) eL hall heL⟩
  · intro eL hall heL
    exact callWithFallbackGo_all_error call (modelsToTry pre) none
      (modelsToTry_ne_nil pre) eL hall heL

/-- Witness for C3: with every model failing with message `"boom"`, the call
fails with the exhaustion error carrying that last message. -/
theorem callWithFallback_exhaustion_w :
    callWithFallback callAllFail none =
      Except.error ("All models failed. Last error: " ++ "boom") :=
  (callWithFallback_exhaustion callAllFail none).2 "boom"
    (fun _ _ => ⟨"boom", rfl⟩) rfl

/-! ## Claim theorems: chunker divergence (C1) -/

theorem dot_not_prefix_replicate (m : Nat) :
    (['.'] : List Char).isPrefixOf (List.replicate m 'a') = false := by
  cases m with
  | zero => rfl
  | succ k => simp [List.replicate, List.isPrefixOf]

theorem nn_not_prefix_replicate (m : Nat) :
    (['\n', '\n'] : List Char).isPrefixOf (List.replicate m 'a') = false := by
  cases m with
  | zero => rfl
  | succ k => simp [List.replicate, List.isPrefixOf]

theorem lastIndexOfFrom_replicate_dot (n : Nat) :
    ∀ k, lastIndexOfFrom (List.replicate n 'a') ['.'] k = -1
  | 0 => by
    simp [lastIndexOfFrom, matchAt, List.drop_replicate, dot_not_prefix_replicate]
  | k + 1 => by
    simp [lastIndexOfFrom, matchAt, List.drop_replicate, dot_not_prefix_replicate,
      lastIndexOfFrom_replicate_dot n k]

theorem lastIndexOfFrom_replicate_nn (n : Nat) :
    ∀ k, lastIndexOfFrom (List.replicate n 'a') ['\n', '\n'] k = -1
  | 0 => by
    simp [lastIndexOfFrom, matchAt, List.drop_replicate, nn_not_prefix_replicate]
  | k + 1 => by
    simp [lastIndexOfFrom, matchAt, List.drop_replicate, nn_not_prefix_replicate,
      lastIndexOfFrom_replicate_nn n k]

theorem jsLastIndexOf_replicate_dot (n : Nat) (pos : Int) :
    jsLastIndexOf (List.replicate n 'a') ['.'] pos = -1 :=
  lastIndexOfFrom_replicate_dot n _

theorem jsLastIndexOf_replicate_nn (n : Nat) (pos : Int) :
    jsLastIndexOf (List.replicate n 'a') ['\n', '\n'] pos = -1 :=
  lastIndexOfFrom_replicate_nn n _

/-- On a text with no `'.'` and no `"\n\n"`, the sentence-boundary adjustment
never fires: the window end is just `min (start + maxChunkSize) length`. -/
theorem chunkWindowEnd_replicate (n : Nat) (maxCS start : Int)
    (hcs : 0 ≤ maxCS) (hst : 0 ≤ start) :
    chunkWindowEnd (List.replicate n 'a') maxCS start = min (start + maxCS) n := by
  unfold chunkWindowEnd
  simp only [List.length_replicate, jsLastIndexOf_replicate_dot,
    jsLastIndexOf_replicate_nn, max_self]
  split
  · rw [if_neg (by omega)]
  · rfl

theorem splitChunksLoop_8001_fix :
    ∀ (k : Nat) (acc : List (List Char)),
      splitChunksLoop (List.replicate 8001 'a') 8000 200 k 7801 acc = none
  | 0, _ => rfl
  | k + 1, acc => by
    simp only [splitChunksLoop]
    rw [if_pos (by simp only [List.length_replicate]; decide)]
    rw [chunkWindowEnd_replicate 8001 8000 7801 (by decide) (by decide)]
    have hmin : min ((7801 : Int) + 8000) ((8001 : Nat) : Int) = 8001 := by decide
    rw [hmin]
    have hsub : (8001 : Int) - 200 = 7801 := by decide
    rw [hsub]
    exact splitChunksLoop_8001_fix k _

theorem splitChunksLoop_8001_from7800 :
    ∀ (k : Nat) (acc : List (List Char)),
      splitChunksLoop (List.replicate 8001 'a') 8000 200 k 7800 acc = none
  | 0, _ => rfl
  | k + 1, acc => by
    simp only [splitChunksLoop]
    rw [if_pos (by simp only [List.length_replicate]; decide)]
    rw [chunkWindowEnd_replicate 8001 8000 7800 (by decide) (by decide)]
    have hmin : min ((7800 : Int) + 8000) ((8001 : Nat) : Int) = 8001 := by decide
    rw [hmin]
    have hsub : (8001 : Int) - 200 = 7801 := by decide
    rw [hsub]
    exact splitChunksLoop_8001_fix k _

theorem splitChunksLoop_8001_from0 :
    ∀ (k : Nat) (acc : List (List Char)),
      splitChunksLoop (List.replicate 8001 'a') 8000 200 k 0 acc = none
  | 0, _ => rfl
  | k + 1, acc => by
    simp only [splitChunksLoop]
    rw [if_pos (by simp only [List.length_replicate]; decide)]
    rw [chunkWindowEnd_replicate 8001 8000 0 (by decide) (by decide)]
    have hmin : min ((0 : Int) + 8000) ((8001 : Nat) : Int) = 8000 := by decide
    rw [hmin]
    have hsub : (8000 : Int) - 200 = 7800 := by decide
    rw [hsub]
    exact splitChunksLoop_8001_from7800 k _

/-- C1 evidence (code bug): under the default configuration (max chunk size
8000, overlap 200) the chunking loop does not terminate on an 8001-character
input — for every fuel bound the loop is still running — because at the
reachable window start 7801 the next start index is again 7801 instead of
strictly increasing. -/
theorem splitContentIntoChunks_default_diverges :
    (∀ fuel : Nat,
      splitContentIntoChunks (List.replicate 8001 'a') MAX_CHUNK_SIZE CHUNK_OVERLAP fuel =
        none) ∧
    chunkWindowEnd (List.replicate 8001 'a') MAX_CHUNK_SIZE 7801 - CHUNK_OVERLAP = 7801 := by
  constructor
  · intro fuel
    unfold splitContentIntoChunks MAX_CHUNK_SIZE CHUNK_OVERLAP
    rw [if_neg (by simp only [List.length_replicate]; decide)]
    exact splitChunksLoop_8001_from0 fuel []
  · unfold MAX_CHUNK_SIZE CHUNK_OVERLAP
    rw [chunkWindowEnd_replicate 8001 8000 7801 (by decide) (by decide)]
    decide

/-! ## Claim theorems: relevance selection (C5, C6) -/

theorem foldl_add_eq_sum (g : α → Nat) :
    ∀ (l : List α) (init : Nat),
      l.foldl (fun acc w => acc + g w) init = init + (l.map g).sum
  | [], init => by simp
  | a :: t, init => by
    simp only [List.foldl_cons, List.map_cons, List.sum_cons]
    rw [foldl_add_eq_sum g t (init + g a)]
    omega

theorem chunkScore_eq_sum (qws : List (List Char)) (c : List Char) :
    chunkScore qws c = chunkScoreSum qws c := by
  unfold chunkScore chunkScoreSum
  rw [foldl_add_eq_sum, Nat.zero_add]

theorem chunkScoresFrom_eq_sum (qws : List (List Char)) :
    ∀ (i : Nat) (cs : List (List Char)),
      chunkScoresFrom qws i cs = chunkScoresSumFrom qws i cs
  | _, [] => rfl
  | i, c :: cs => by
    simp only [chunkScoresFrom, chunkScoresSumFrom, chunkScore_eq_sum]
    rw [chunkScoresFrom_eq_sum qws (i + 1) cs]

/-- C5 counterexample: on the question `"ball allo"` with chunks `"ballo"`
and `"ball allo"` and `maxChunks = 1`, the code (which sums over question
words, so the single chunk word `"ballo"` counts twice) selects `"ballo"`,
while the claim's score (each chunk word counted once) would select
`"ball allo"`. -/
theorem findRelevantChunks_ne_claim :
    findRelevantChunks ['b', 'a', 'l', 'l', ' ', 'a', 'l', 'l', 'o']
        [['b', 'a', 'l', 'l', 'o'], ['b', 'a', 'l', 'l', ' ', 'a', 'l', 'l', 'o']] 1 =
      [['b', 'a', 'l', 'l', 'o']] ∧
    findRelevantChunksClaim ['b', 'a', 'l', 'l', ' ', 'a', 'l', 'l', 'o']
        [['b', 'a', 'l', 'l', 'o'], ['b', 'a', 'l', 'l', ' ', 'a', 'l', 'l', 'o']] 1 =
      [['b', 'a', 'l', 'l', ' ', 'a', 'l', 'l', 'o']] ∧
    findRelevantChunks ['b', 'a', 'l', 'l', ' ', 'a', 'l', 'l', 'o']
        [['b', 'a', 'l', 'l', 'o'], ['b', 'a', 'l', 'l', ' ', 'a', 'l', 'l', 'o']] 1 ≠
      findRelevantChunksClaim ['b', 'a', 'l', 'l', ' ', 'a', 'l', 'l', 'o']
        [['b', 'a', 'l', 'l', 'o'], ['b', 'a', 'l', 'l', ' ', 'a', 'l', 'l', 'o']] 1 := by
  refine ⟨?_, ?_, ?_⟩ <;> decide

/-- C5 amended: the score of a chunk is the sum, over the question's
lowercase words longer than 3 characters (with multiplicity), of the number
of chunk words containing that word as a substring; the pipeline then
stably sorts descending by score, takes the top `maxChunks` and restores
document order. -/
theorem findRelevantChunks_eq_amended (question : List Char)
    (chunks : List (List Char)) (maxChunks : Nat) :
    findRelevantChunks question chunks maxChunks =
      findRelevantChunksAmended question chunks maxChunks := by
  unfold findRelevantChunks findRelevantChunksAmended
  rw [chunkScoresFrom_eq_sum]

theorem insertionSort_eq_self_of_total (r : α → α → Prop) [DecidableRel r] :
    ∀ l : List α, (∀ a ∈ l, ∀ b ∈ l, r a b) → l.insertionSort r = l
  | [], _ => rfl
  | a :: t, h => by
    rw [List.insertionSort_cons r
      (fun b hb => h a (List.mem_cons_self a t) b (List.mem_cons_of_mem a hb))]
    rw [insertionSort_eq_self_of_total r t
      (fun x hx y hy => h x (List.mem_cons_of_mem a hx) y (List.mem_cons_of_mem a hy))]

theorem chunkScoresFrom_map_chunk (qws : List (List Char)) :
    ∀ (i : Nat) (cs : List (List Char)),
      (chunkScoresFrom qws i cs).map (fun e => e.chunk) = cs
  | _, [] => rfl
  | i, c :: cs => by
    simp only [chunkScoresFrom, List.map_cons]
    rw [chunkScoresFrom_map_chunk qws (i + 1) cs]

theorem chunkScoresFrom_take (qws : List (List Char)) :
    ∀ (i : Nat) (cs : List (List Char)) (n : Nat),
      (chunkScoresFrom qws i cs).take n = chunkScoresFrom qws i (cs.take n)
  | _, [], n => by simp [chunkScoresFrom]
  | i, c :: cs, 0 => rfl
  | i, c :: cs, n + 1 => by
    simp only [chunkScoresFrom, List.take_succ_cons]
    rw [chunkScoresFrom_take qws (i + 1) cs n]

theorem chunkScoresFrom_index_ge (qws : List (List Char)) :
    ∀ (i : Nat) (cs : List (List Char)) (e : ChunkScore),
      e ∈ chunkScoresFrom qws i cs → i ≤ e.index
  | i, [], e, h => absurd h (List.not_mem_nil e)
  | i, c :: cs, e, h => by
    rcases List.mem_cons.mp h with rfl | h2
    · exact Nat.le_refl i
    · exact Nat.le_of_succ_le (chunkScoresFrom_index_ge qws (i + 1) cs e h2)

theorem chunkScoresFrom_sorted_idx (qws : List (List Char)) :
    ∀ (i : Nat) (cs : List (List Char)),
      List.Sorted idxLe (chunkScoresFrom qws i cs)
  | _, [] => List.sorted_nil
  | i, c :: cs => by
    rw [chunkScoresFrom, List.sorted_cons]
    exact ⟨fun e he => Nat.le_of_succ_le (chunkScoresFrom_index_ge qws (i + 1) cs e he),
      chunkScoresFrom_sorted_idx qws (i + 1) cs⟩

theorem chunkScore_eq_zero (qws : List (List Char)) (c : List Char)
    (h : ∀ w ∈ qws, ∀ cw ∈ jsSplitWs (jsToLower c), jsIncludes w cw = false) :
    chunkScore qws c = 0 := by
  rw [chunkScore_eq_sum]
  unfold chunkScoreSum
  apply List.sum_eq_zero
  intro x hx
  rcases List.mem_map.mp hx with ⟨w, hw, rfl⟩
  rw [List.filter_eq_nil_iff.mpr]
  · rfl
  · intro cw hcw
    simp [h w hw cw hcw]

theorem chunkScoresFrom_score_zero (qws : List (List Char)) :
    ∀ (i : Nat) (cs : List (List Char)),
      (∀ c ∈ cs, chunkScore qws c = 0) →
      ∀ e ∈ chunkScoresFrom qws i cs, e.score = 0
  | i, [], _, e, he => absurd he (List.not_mem_nil e)
  | i, c :: cs, h, e, he => by
    rcases List.mem_cons.mp he with rfl | h2
    · exact h c (List.mem_cons_self c cs)
    · exact chunkScoresFrom_score_zero qws (i + 1) cs
        (fun x hx => h x (List.mem_cons_of_mem c hx)) e h2

/-- C6: when no (lowercased, longer-than-3) question word is a substring of
any chunk word, `findRelevantChunks` returns the first `min(maxChunks, #chunks)`
chunks in original order, and the result is non-empty whenever the chunk
list is non-empty (and `maxChunks` is positive; the source default is 3). -/
theorem findRelevantChunks_no_overlap (q : List Char) (chunks : List (List Char))
    (n : Nat) (hne : chunks ≠ []) (hn : 0 < n)
    (hz : ∀ c ∈ chunks, ∀ w ∈ questionWords q, ∀ cw ∈ jsSplitWs (jsToLower c),
      jsIncludes w cw = false) :
    findRelevantChunks q chunks n = chunks.take n ∧ findRelevantChunks q chunks n ≠ [] := by
  have hz2 : ∀ c ∈ chunks, chunkScore (questionWords q) c = 0 :=
    fun c hc => chunkScore_eq_zero _ _ (fun w hw => hz c hc w hw)
  have hs0 : ∀ e ∈ chunkScoresFrom (questionWords q) 0 chunks, e.score = 0 :=
    chunkScoresFrom_score_zero _ 0 chunks hz2
  have hsort1 : (chunkScoresFrom (questionWords q) 0 chunks).insertionSort scoreGe =
      chunkScoresFrom (questionWords q) 0 chunks :=
    insertionSort_eq_self_of_total _ _
      (fun a ha b hb => by unfold scoreGe; rw [hs0 a ha, hs0 b hb])
  have hlen : 0 < (chunks.take n).length := by
    rw [List.length_take]
    exact Nat.lt_min.mpr ⟨hn, List.length_pos.mpr hne⟩
  have hr : rankedChunks (chunkScoresFrom (questionWords q) 0 chunks) n = chunks.take n := by
    unfold rankedChunks
    rw [hsort1, chunkScoresFrom_take,
      (chunkScoresFrom_sorted_idx (questionWords q) 0 (chunks.take n)).insertionSort_eq,
      chunkScoresFrom_map_chunk]
  have hmain : findRelevantChunks q chunks n = chunks.take n := by
    unfold findRelevantChunks
    rw [hr, if_pos hlen]
  refine ⟨hmain, ?_⟩
  rw [hmain]
  exact List.length_pos.mp hlen

/-- Witness for C6 at a question with no lexical overlap. -/
theorem findRelevantChunks_no_overlap_w :
    findRelevantChunks ['z', 'z', 'z', 'z'] [['a']] 3 = [['a']].take 3 ∧
    findRelevantChunks ['z', 'z', 'z', 'z'] [['a']] 3 ≠ [] :=
  findRelevantChunks_no_overlap ['z', 'z', 'z', 'z'] [['a']] 3
    (by decide) (by decide) (by decide)

/-! ## Claim theorems: MCQ shape (C7) -/

theorem validateMCQ_shape (q : RawMCQ) (i : Nat) :
    (validateMCQ q i).options.length = 4 ∧
    0 ≤ (validateMCQ q i).correctAnswer ∧ (validateMCQ q i).correctAnswer ≤ 3 := by
  unfold validateMCQ
  refine ⟨?_, ?_⟩
  · rcases q.options with _ | opts
    · rfl
    · simp only
      split
      · assumption
      · rfl
  · rcases q.correctAnswer with _ | c
    · exact ⟨le_refl 0, by norm_num⟩
    · simp only
      split
      · next hc => exact hc
      · exact ⟨le_refl 0, by norm_num⟩

theorem fallbackMCQs_shape (n : Nat) (topic : String) :
    ∀ q ∈ fallbackMCQs n topic,
      q.options.length = 4 ∧ 0 ≤ q.correctAnswer ∧ q.correctAnswer ≤ 3 := by
  intro q hq
  rcases List.mem_map.mp hq with ⟨i, _, rfl⟩
  exact ⟨rfl, le_refl 0, by norm_num⟩

theorem mem_validateMCQsFrom :
    ∀ (i : Nat) (qs : List RawMCQ) (q : MCQQuestion),
      q ∈ validateMCQsFrom i qs → ∃ raw j, q = validateMCQ raw j
  | _, [], q, h => absurd h (List.not_mem_nil q)
  | i, r :: rs, q, h => by
    rcases List.mem_cons.mp h with rfl | h2
    · exact ⟨r, i, rfl⟩
    · exact mem_validateMCQsFrom (i + 1) rs q h2

theorem length_validateMCQsFrom :
    ∀ (i : Nat) (qs : List RawMCQ), (validateMCQsFrom i qs).length = qs.length
  | _, [] => rfl
  | i, r :: rs => by
    simp only [validateMCQsFrom, List.length_cons]
    rw [length_validateMCQsFrom (i + 1) rs]

/-- C7: every question produced by the MCQ response processing has exactly 4
options and a correctAnswer between 0 and 3 inclusive; and when the model
response parses as a non-empty JSON array, the processing does not fall back
and returns exactly `min(parsed length, requested)` questions. -/
theorem generateMCQs_shape :
    (∀ (parsed : Option (List RawMCQ)) (n : Nat) (topic : String) (q : MCQQuestion),
      q ∈ processMCQResponse parsed n topic →
      q.options.length = 4 ∧ 0 ≤ q.correctAnswer ∧ q.correctAnswer ≤ 3) ∧
    (∀ (l : List RawMCQ) (n : Nat) (topic : String), l ≠ [] →
      (processMCQResponse (some l) n topic).length = min l.length n) := by
  constructor
  · intro parsed n topic q hq
    cases parsed with
    | none => exact fallbackMCQs_shape n topic q hq
    | some qs =>
      simp only [processMCQResponse] at hq
      split at hq
      · exact fallbackMCQs_shape n topic q hq
      · rcases mem_validateMCQsFrom 0 qs q (List.mem_of_mem_take hq) with ⟨raw, j, rfl⟩
        exact validateMCQ_shape raw j
  · intro l n topic hl
    simp only [processMCQResponse]
    rw [if_neg (by simpa using hl)]
    rw [List.length_take, length_validateMCQsFrom]
    exact Nat.min_comm n l.length

/-- Witness for C7: one well-formed parsed question, five requested. -/
theorem generateMCQs_shape_w :
    (processMCQResponse (some [rawMCQ1]) 5 "topic").length = min 1 5 ∧
    ((validateMCQ rawMCQ1 0).options.length = 4 ∧
      0 ≤ (validateMCQ rawMCQ1 0).correctAnswer ∧ (validateMCQ rawMCQ1 0).correctAnswer ≤ 3) := by
  constructor
  · exact generateMCQs_shape.2 [rawMCQ1] 5 "topic" (by simp)
  · refine generateMCQs_shape.1 (some [rawMCQ1]) 5 "topic" _ ?_
    simp [processMCQResponse, validateMCQsFrom]

end URLQuestioner
